import Mathlib

/-!
# Verification of the protobuf schema emitter (`src/lib/proto.go`)

Shallow embedding of the schema emitter of this repository: the data model
(`Function` / `Argument`), the type mapper (`protoType`, `protoOptions`),
the dedup registry (a list of already-seen message names), the recursive
message emitter (`protoWriteMessageTyp`, modelled by `protoWMT` with an
explicit fuel for the recursion depth) and the service emitter
(`SaveProtobuf`).  Writers are modelled by explicit state passing: a
`bytes.Buffer` is a `String` accumulator, the destination sink together
with the `errWriter` wrapper is the `EW` state whose underlying writes may
fail according to a `sink : Nat → Option String` failure schedule.

Helpers that `src/lib/proto.go` uses but that are defined elsewhere in the
repository (`CamelCase`, `replHidden`, `getStructName`, the `Argument`
struct and its `goType` method, the direction/flavor constants, the
`errWriter` type) are modelled from the spec; each such definition carries
a doc comment saying so.
-/

/-- Modelled from the spec: the `FLAVOR_SIMPLE` / `FLAVOR_TABLE` constants
(and the implicit record flavor) are declared outside `src/lib/proto.go`;
the spec has Flavor one of SIMPLE, TABLE, RECORD-implicit. -/
inductive Flavor where
  | simple
  | record
  | table
deriving DecidableEq

/-- Modelled from the spec: the `Argument` struct is declared outside
`src/lib/proto.go`.  Fields follow the spec's data model: name, Direction
bit flags, Flavor, the absolute native type label, the owned `TableOf`
element descriptor and the ordered `RecordOf` field mapping.  `GoType`
models the result of the `goType(false)` method (the argument's type
descriptor as consumed by the emitter); `RecordOf` is `Option` of a list so
that a Go `nil` slice (`none`) is distinguished from an empty one. -/
inductive Argument : Type where
  | mk (Name : String) (Direction : Nat) (Flavor : Flavor) (AbsType : String)
       (GoType : String) (TableOf : Option Argument)
       (RecordOf : Option (List (String × Argument))) : Argument

def Argument.Name : Argument → String
  | .mk n _ _ _ _ _ _ => n

def Argument.Direction : Argument → Nat
  | .mk _ d _ _ _ _ _ => d

def Argument.Flavor : Argument → Flavor
  | .mk _ _ f _ _ _ _ => f

def Argument.AbsType : Argument → String
  | .mk _ _ _ a _ _ _ => a

def Argument.GoType : Argument → String
  | .mk _ _ _ _ g _ _ => g

def Argument.TableOf : Argument → Option Argument
  | .mk _ _ _ _ _ t _ => t

def Argument.RecordOf : Argument → Option (List (String × Argument))
  | .mk _ _ _ _ _ _ r => r

/-- Modelled from the spec: the `Function` struct is declared outside
`src/lib/proto.go`: a name, the ordered argument list, the optional
`Returns` argument and the documentation text.  `hasCursorOut` models the
`HasCursorOut()` method (whether the function is marked as producing a
cursor-like streaming result). -/
structure Function where
  name : String
  Args : List Argument
  Returns : Option Argument
  Documentation : String
  hasCursorOut : Bool

/-- The three package-level switches `SkipMissingTableOf`, `Gogo`,
`NumberAsString` of `src/lib/proto.go`, threaded explicitly. -/
structure Config where
  SkipMissingTableOf : Bool
  Gogo : Bool
  NumberAsString : Bool

/-- Modelled from the spec: `DIR_IN` is declared outside
`src/lib/proto.go`; Direction is a bit set where IN and OUT are distinct,
independently-testable bits. -/
def DIR_IN : Nat := 1

/-- Modelled from the spec: `DIR_OUT`, the other direction bit. -/
def DIR_OUT : Nat := 2

/-- Go's `strings.HasPrefix`, computed on the character lists (so that the
kernel can evaluate it on concrete strings). -/
def strHasPrefix (s pre : String) : Bool := pre.data.isPrefixOf s.data

/-- Go's `strings.HasSuffix`, computed on the character lists. -/
def strHasSuffix (s suf : String) : Bool := suf.data.isSuffixOf s.data

/-- Go's `strings.ToLower` (over the character list; the identifiers
handled here are ASCII). -/
def strToLower (s : String) : String := String.mk (s.data.map Char.toLower)

/-- Drop the first `n` characters. -/
def strDrop (s : String) (n : Nat) : String := String.mk (s.data.drop n)

/-- Replace every occurrence of the character `pat` by the string `rep`
(the `strings.Replace`/`strings.NewReplacer` uses of `src/lib/proto.go`
all have single-character patterns). -/
def strReplaceChar (pat : Char) (rep : String) (s : String) : String :=
  String.mk (s.data.flatMap fun c => if c = pat then rep.data else [c])

/-- Go's `strings.TrimPrefix`: drop `pre` if it is a prefix, else return
the string unchanged. -/
def goTrimPrefix (s pre : String) : String :=
  if strHasPrefix s pre then strDrop s pre.data.length else s

/-- `dot2D.Replace`: the `strings.NewReplacer(".", "__")` of
`src/lib/proto.go`. -/
def dot2D (s : String) : String := strReplaceChar '.' "__" s

/-- Modelled from the spec: `replHidden` is defined outside
`src/lib/proto.go`; the spec says a trailing `#` marker is desugared to a
fixed safe substitute (`count#` → `count_`), never keeping the raw marker
character. -/
def replHidden (s : String) : String := strReplaceChar '#' "_" s

/-- Split a character list at every underscore (the groups, in order;
adjacent separators yield empty groups, matching `String.splitOn "_"`). -/
def splitOnUnderscore : List Char → List (List Char)
  | [] => [[]]
  | x :: xs =>
    match splitOnUnderscore xs with
    | [] => [[]]
    | g :: gs => if x = '_' then [] :: g :: gs else (x :: g) :: gs

/-- Capitalize the first character of a group. -/
def capFirst : List Char → List Char
  | [] => []
  | c :: cs => c.toUpper :: cs

/-- Modelled from the spec: `CamelCase` is defined outside
`src/lib/proto.go`; the spec says names are "title-cased into an
identifier" (so `get_emp__input` becomes `GetEmpInput`): the name is split
at underscores and each part's first character is upper-cased. -/
def CamelCase (s : String) : String :=
  String.mk ((splitOnUnderscore s.data).map capFirst).flatten

/-- `mkRecTypName` of `src/lib/proto.go`: the deterministic placeholder
type name for an empty type descriptor. -/
def mkRecTypName (name : String) : String := strToLower name ++ "_rek_typ"

/-- An option value of the `protoOptions` map (`map[string]interface{}`):
the values actually stored are strings, and the renderer special-cases
booleans. -/
inductive OptVal where
  | boolV (b : Bool)
  | strV (s : String)
deriving DecidableEq

/-- The `protoOptions` map of `src/lib/proto.go`, as an association list
(a Go map holds at most one value per key; iteration order is modelled by
the list order). -/
abbrev protoOptions : Type := List (String × OptVal)

/-- Modelled from the spec: Go's `%q` formatting of a string value
(quoted; quote and backslash characters escaped — the values arising here
contain no control characters). -/
def goQuote (s : String) : String :=
  "\"" ++ String.join (s.data.map fun c =>
    if c = '"' then "\\\"" else if c = '\\' then "\\\\" else String.singleton c) ++ "\""

/-- Rendering of one `(key)=value` option item, booleans unquoted (`%t`),
everything else `%q`-quoted. -/
def optItem (kv : String × OptVal) : String :=
  "(" ++ kv.1 ++ ")=" ++
    (match kv.2 with
     | .boolV b => if b then "true" else "false"
     | .strV s => goQuote s)

/-- `protoOptions.String` of `src/lib/proto.go`: empty map renders as
nothing, otherwise a bracketed, comma-joined `(key)=value` list. -/
def protoOptionsString (opts : protoOptions) : String :=
  match opts with
  | [] => ""
  | kv :: rest => "[" ++ optItem kv ++
      String.join (rest.map fun kv2 => ", " ++ optItem kv2) ++ "]"

/-- `protoType` of `src/lib/proto.go`: the type mapper from a normalized
native descriptor (and the field name, for the json-tag option) to the
wire type and field options. -/
def protoType (cfg : Config) (got aName : String) : String × protoOptions :=
  let trimmed := strToLower (goTrimPrefix (goTrimPrefix got "[]") "*")
  if trimmed == "time.time" then ("string", [])
  else if trimmed == "string" then ("string", [])
  else if trimmed == "int32" then
    if cfg.NumberAsString then
      ("sint32", [("gogoproto.jsontag", OptVal.strV (aName ++ ",string,omitempty"))])
    else ("sint32", [])
  else if trimmed == "float64" || trimmed == "sql.nullfloat64" then
    if cfg.NumberAsString then
      ("double", [("gogoproto.jsontag", OptVal.strV (aName ++ ",string,omitempty"))])
    else ("double", [])
  else if trimmed == "goracle.number" then
    ("string", [("gogoproto.jsontag", OptVal.strV (aName ++ ",omitempty"))])
  else if trimmed == "custom.date" then ("string", [])
  else if trimmed == "n" then ("string", [])
  else if trimmed == "raw" || trimmed == "goracle.lob" || trimmed == "ora.lob" then
    ("bytes", [])
  else (trimmed, [])

/-- Errors of the emitter.  `missingTableOf` models errors whose
`errors.Cause` is `ErrMissingTableOf` (the carried string is the full
wrapped message); `ioErr` models write errors of the destination sink;
`outOfFuel` is the artifact of the explicit recursion-depth fuel of the
shallow embedding (argument trees are finite, so a large enough fuel never
hits it). -/
inductive PErr where
  | missingTableOf (msg : String)
  | ioErr (msg : String)
  | outOfFuel
deriving DecidableEq

/-- `errors.Cause(err) == ErrMissingTableOf`. -/
def isMissingTableOf : PErr → Bool
  | .missingTableOf _ => true
  | _ => false

/-- `errors.Wrap(err, pre)`: prefixes the message, preserves the cause. -/
def wrapErr (pre : String) : PErr → PErr
  | .missingTableOf m => .missingTableOf (pre ++ ": " ++ m)
  | .ioErr m => .ioErr (pre ++ ": " ++ m)
  | .outOfFuel => .outOfFuel

/-- Modelled from the spec: the `%s`/`%v` rendering of an `Argument`
(its `String` method is defined outside `src/lib/proto.go`); the spec only
requires that the error names the argument's identity. -/
def argStr (a : Argument) : String := a.Name

/-- The message of `errors.Wrapf(ErrMissingTableOf, "no table of data for
%s.%s (%v)", msgName, arg, arg)` in `src/lib/proto.go`. -/
def mtoMsg (msgName : String) (a : Argument) : String :=
  "no table of data for " ++ msgName ++ "." ++ argStr a ++ " (" ++ argStr a ++ ")"

/-- Modelled from the spec: the `errWriter` type is defined outside
`src/lib/proto.go`.  It wraps the destination sink, latches the first
write error into a shared error slot, and makes every later write return
that error without touching the sink.  `cnt` counts the underlying write
attempts; the sink's failure behavior is a schedule `Nat → Option String`
consumed by `ewWrite`. -/
structure EW where
  out : String
  cnt : Nat
  err : Option String
deriving DecidableEq

/-- One write through the `errWriter`: if an error is already latched it is
returned and the sink is not touched; otherwise the sink is attempted and
a failure is latched. -/
def ewWrite (sink : Nat → Option String) (w : EW) (s : String) : EW × Option String :=
  match w.err with
  | some e => (w, some e)
  | none =>
    match sink w.cnt with
    | some e => ({ w with cnt := w.cnt + 1, err := some e }, some e)
    | none => ({ w with out := w.out ++ s, cnt := w.cnt + 1 }, none)

/-- The field name after desugaring a trailing `#` marker
(`if strings.HasSuffix(arg.Name, "#") { arg.Name = replHidden(arg.Name) }`
in `src/lib/proto.go`). -/
def argFieldName (a : Argument) : String :=
  if strHasSuffix a.Name "#" then replHidden a.Name else a.Name

/-- The `rule` qualifier and the normalized type descriptor, before the
empty-descriptor fallback: `repeated ` is set for `FLAVOR_TABLE`, one
leading `*` is stripped, a leading `[]` also forces `repeated ` and is
stripped, then a further `*` is stripped (`src/lib/proto.go`, the
`got := arg.goType(false)` block). -/
def argRuleGot (a : Argument) : String × String :=
  let rule0 := if a.Flavor == Flavor.table then "repeated " else ""
  let got0 := goTrimPrefix a.GoType "*"
  let (rule1, got1) :=
    if strHasPrefix got0 "[]" then ("repeated ", strDrop got0 2) else (rule0, got0)
  (rule1, goTrimPrefix got1 "*")

/-- The normalized descriptor after the empty-descriptor fallback
(`if got == "" { got = mkRecTypName(arg.Name) }` in `src/lib/proto.go`;
`arg.Name` is the already-desugared field name at that point). -/
def argGot (a : Argument) : String :=
  if (argRuleGot a).2 == "" then mkRecTypName (argFieldName a) else (argRuleGot a).2

/-- The wire type the type mapper yields for an argument. -/
def argWireTyp (cfg : Config) (a : Argument) : String :=
  (protoType cfg (argGot a) (argFieldName a)).1

/-- The rendered option suffix of a field line
(`if s := pOpts.String(); s != "" { optS = " " + s }`). -/
def argOptS (cfg : Config) (a : Argument) : String :=
  let s := protoOptionsString (protoType cfg (argGot a) (argFieldName a)).2
  if s == "" then "" else " " ++ s

/-- `arg.TableOf.Flavor == FLAVOR_SIMPLE` (only evaluated when `TableOf`
is present; `none` yields `false`, an unreachable case behind the
nil check of `src/lib/proto.go`). -/
def argTableOfFlavorSimple (a : Argument) : Bool :=
  match a.TableOf with
  | some t => t.Flavor == Flavor.simple
  | none => false

/-- Whether the argument takes the scalar field-line fast path:
`arg.Flavor == FLAVOR_SIMPLE || arg.Flavor == FLAVOR_TABLE &&
arg.TableOf.Flavor == FLAVOR_SIMPLE`. -/
def argIsScalarLine (a : Argument) : Bool :=
  a.Flavor == Flavor.simple || (a.Flavor == Flavor.table && argTableOfFlavorSimple a)

/-- The one field line `protoWriteMessageTyp` emits for the argument at
(0-based) position `i`: the scalar path gets a doc comment carrying the
absolute native type label and the raw wire type; the composite path gets
the bare referencing line with the `CamelCase`d nested message name. -/
def specLine (cfg : Config) (i : Nat) (a : Argument) : String :=
  if argIsScalarLine a then
    "\t// " ++ a.AbsType ++ "\n\t" ++ (argRuleGot a).1 ++ argWireTyp cfg a ++ " " ++
      argFieldName a ++ " = " ++ toString (i + 1) ++ argOptS cfg a ++ ";\n"
  else
    "\t" ++ (argRuleGot a).1 ++ CamelCase (argWireTyp cfg a) ++ " " ++
      argFieldName a ++ " = " ++ toString (i + 1) ++ argOptS cfg a ++ ";\n"

/-- The argument list a composite argument's nested message is built from:
the `TableOf` element itself for a table of scalars, the `TableOf`'s
`RecordOf` fields for a table of records, else the argument's own
`RecordOf` fields (`src/lib/proto.go`, the `subArgs` block). -/
def subArgsOf (a : Argument) : List Argument :=
  match a.TableOf with
  | some t =>
    match t.RecordOf with
    | none => [t]
    | some ro => ro.map (fun v => v.2)
  | none => (a.RecordOf.getD []).map (fun v => v.2)

/-- The per-argument loop of `protoWriteMessageTyp` (`src/lib/proto.go`
lines 144-199): state is (remaining arguments, 0-based index, text written
to `dst` so far, side buffer `buf` of nested messages, registry `seen`);
`recur` is the recursive call emitting a nested message into the side
buffer.  On an error the text written so far and the mutated registry are
returned with the error (the side buffer is discarded by the caller). -/
def protoWMTLoop (cfg : Config)
    (recur : String → List String → List Argument → String × List String × Option PErr)
    (msgName : String) :
    List Argument → Nat → String → String → List String →
      String × String × List String × Option PErr
  | [], _, dst, buf, seen => (dst, buf, seen, none)
  | a :: rest, i, dst, buf, seen =>
    if a.Flavor == Flavor.table && a.TableOf.isNone then
      (dst, buf, seen, some (PErr.missingTableOf (mtoMsg msgName a)))
    else if argIsScalarLine a then
      protoWMTLoop cfg recur msgName rest (i + 1) (dst ++ specLine cfg i a) buf seen
    else
      let typC := CamelCase (argWireTyp cfg a)
      if seen.contains typC then
        protoWMTLoop cfg recur msgName rest (i + 1) (dst ++ specLine cfg i a) buf seen
      else
        match recur typC seen (subArgsOf a) with
        | (sub, seen', none) =>
          protoWMTLoop cfg recur msgName rest (i + 1) (dst ++ specLine cfg i a)
            (buf ++ sub) (typC :: seen')
        | (_, seen', some e) => (dst, buf, seen', some e)

/-- `protoWriteMessageTyp` of `src/lib/proto.go`: pre-scan the arguments
for a `FLAVOR_TABLE` argument with absent `TableOf` (failing before
anything is written), then write the `message` header, run the per-argument
loop, close the body and append the side buffer of nested messages.  The
first component is the text written to `dst` (partial when an error is
returned); `fuel` bounds the recursion depth of the embedding. -/
def protoWMT (cfg : Config) :
    Nat → String → List String → List Argument → String × List String × Option PErr
  | 0, _, seen, _ => ("", seen, some PErr.outOfFuel)
  | fuel + 1, msgName, seen, args =>
    match args.find? (fun a => a.Flavor == Flavor.table && a.TableOf.isNone) with
    | some a => ("", seen, some (PErr.missingTableOf (mtoMsg msgName a)))
    | none =>
      match protoWMTLoop cfg (protoWMT cfg fuel) msgName args 0
          ("\nmessage " ++ msgName ++ " \x7b\n") "" seen with
      | (dst, buf, seen', none) => (dst ++ "\x7d\n" ++ buf, seen', none)
      | (dst, _, seen', some e) => (dst, seen', some e)

/-- The argument selection of `Function.saveProtobufDir`: the arguments
whose `Direction` contains the direction's bit, in original order, plus —
for the output direction — the `Returns` argument appended last. -/
def saveDirArgs (f : Function) (out : Bool) : List Argument :=
  let dirmap := if out then DIR_OUT else DIR_IN
  let args := f.Args.foldl
    (fun acc arg => if 0 < arg.Direction &&& dirmap then acc ++ [arg] else acc) []
  if out then
    match f.Returns with
    | some r => args ++ [r]
    | none => args
  else args

/-- The derived message name of `Function.saveProtobufDir`:
`CamelCase(dot2D.Replace(strings.ToLower(f.name)) + "__" + dirname)`. -/
def dirMsgName (f : Function) (out : Bool) : String :=
  CamelCase (dot2D (strToLower f.name) ++ "__" ++ (if out then "output" else "input"))

/-- `Function.saveProtobufDir` of `src/lib/proto.go`. -/
def saveProtobufDir (cfg : Config) (fuel : Nat) (f : Function) (seen : List String)
    (out : Bool) : String × List String × Option PErr :=
  protoWMT cfg fuel (dirMsgName f out) seen (saveDirArgs f out)

/-- `Function.SaveProtobuf` of `src/lib/proto.go`: both directions are
emitted into one local buffer; on an error of either direction the error
is wrapped (`"input"` / `"output"`) and nothing is committed (the first
component, the text to write to the shared sink, is empty); on success the
full two-direction text is committed at once. -/
def FunctionSaveProtobuf (cfg : Config) (fuel : Nat) (f : Function) (seen : List String) :
    String × List String × Option PErr :=
  match saveProtobufDir cfg fuel f seen false with
  | (_, seen1, some e) => ("", seen1, some (wrapErr "input" e))
  | (bufIn, seen1, none) =>
    match saveProtobufDir cfg fuel f seen1 true with
    | (_, seen2, some e) => ("", seen2, some (wrapErr "output" e))
    | (bufOut, seen2, none) => (bufIn ++ bufOut, seen2, none)

/-- Modelled from the spec: `Function.getStructName` is defined outside
`src/lib/proto.go`; per the spec, the service block's method and message
names are derived identically to the schema emitter's step 2 (function
name lower-cased, dots replaced by a double underscore, direction suffix
appended), before title-casing. -/
def getStructName (f : Function) (out : Bool) : String :=
  dot2D (strToLower f.name) ++ "__" ++ (if out then "output" else "input")

/-- One `rpc` entry of the service block
(`src/lib/proto.go` lines 68-85): optional prefixed doc comment, then
`rpc <Name> (<InputMsg>) returns ([stream ]<OutputMsg>) {}`. -/
def serviceEntry (f : Function) : String :=
  let fName := strToLower f.name
  let streamQual := if f.hasCursorOut then "stream " else ""
  let comment :=
    if f.Documentation != "" then
      "\n/// " ++ strReplaceChar (Char.ofNat 10) "\n/// " f.Documentation ++ "\n\t"
    else ""
  comment ++ "rpc " ++ CamelCase (dot2D fName) ++ " (" ++
    CamelCase (getStructName f false) ++ ") returns (" ++ streamQual ++
    CamelCase (getStructName f true) ++ ") \x7b\x7d"

/-- The `FunLoop` of `SaveProtobuf` (`src/lib/proto.go` lines 58-86):
emit each function; on an error whose cause is `ErrMissingTableOf` with
the skip policy enabled, log and skip the function; on any other error
abort returning it; on success commit the function's buffered text through
the `errWriter` (a failed commit write is the returned error) and record
the function's service entry. -/
def saveLoop (cfg : Config) (fuel : Nat) (sink : Nat → Option String) :
    List Function → EW → List String → List String →
      EW × List String × List String × Option PErr
  | [], w, seen, services => (w, seen, services, none)
  | f :: rest, w, seen, services =>
    match FunctionSaveProtobuf cfg fuel f seen with
    | (_, seen', some e) =>
      if cfg.SkipMissingTableOf && isMissingTableOf e then
        saveLoop cfg fuel sink rest w seen' services
      else (w, seen', services, some e)
    | (txt, seen', none) =>
      match ewWrite sink w txt with
      | (w', some m) => (w', seen', services, some (PErr.ioErr m))
      | (w', none) => saveLoop cfg fuel sink rest w' seen' (services ++ [serviceEntry f])

/-- The writer state after the header writes of `SaveProtobuf`
(`src/lib/proto.go` lines 44-53): the syntax header, the optional package
clause, the optional gogo import line. -/
def headerEW (cfg : Config) (sink : Nat → Option String) (pkg : String) : EW :=
  let w : EW := { out := "", cnt := 0, err := none }
  let w := (ewWrite sink w ("syntax = \"proto3\";\n\n")).1
  let w := if pkg != "" then (ewWrite sink w ("package " ++ pkg ++ ";\n")).1 else w
  if cfg.Gogo then
    (ewWrite sink w "\n\timport \"github.com/gogo/protobuf/gogoproto/gogo.proto\";\n").1
  else w

/-- `SaveProtobuf` of `src/lib/proto.go`: the header writes, the function
loop, then the service block — all through one `errWriter` over the
destination sink.  Faithfully to the source, the final statement returns
`nil`: the function returns an error only out of the function loop. -/
def SaveProtobuf (cfg : Config) (fuel : Nat) (sink : Nat → Option String)
    (functions : List Function) (pkg : String) : EW × Option PErr :=
  match saveLoop cfg fuel sink functions (headerEW cfg sink pkg) [] [] with
  | (w, _, services, none) =>
    let w := (ewWrite sink w ("\nservice " ++ CamelCase pkg ++ " \x7b\n")).1
    let w := services.foldl (fun wacc s => (ewWrite sink wacc ("\t" ++ s ++ "\n")).1) w
    let w := (ewWrite sink w "\x7d").1
    (w, none)
  | (w, _, _, some e) => (w, some e)

/-- The never-failing destination sink. -/
def okSink : Nat → Option String := fun _ => none

/-- The lines of the main message body as a pure function of the argument
list: one field line per argument, field numbers assigned sequentially
from `i + 1` in argument order. -/
def specLines (cfg : Config) : Nat → List Argument → String
  | _, [] => ""
  | i, a :: rest => specLine cfg i a ++ specLines cfg (i + 1) rest

theorem protoWMTLoop_nil (cfg : Config) (recur) (msgName : String) (i : Nat)
    (dst buf : String) (seen : List String) :
    protoWMTLoop cfg recur msgName [] i dst buf seen = (dst, buf, seen, none) := rfl

theorem scalar_not_guard {a : Argument} (h : argIsScalarLine a = true) :
    (a.Flavor == Flavor.table && a.TableOf.isNone) = false := by
  unfold argIsScalarLine argTableOfFlavorSimple at h
  cases ht : (a.Flavor == Flavor.table) with
  | false => simp [ht]
  | true =>
    simp only [ht, Bool.true_and]
    cases hto : a.TableOf with
    | none =>
      rw [beq_iff_eq] at ht
      simp [ht, hto] at h
    | some t => simp [hto]

theorem protoWMTLoop_scalar (cfg : Config) (recur) (msgName : String) (a : Argument)
    (rest : List Argument) (i : Nat) (dst buf : String) (seen : List String)
    (h : argIsScalarLine a = true) :
    protoWMTLoop cfg recur msgName (a :: rest) i dst buf seen =
      protoWMTLoop cfg recur msgName rest (i + 1) (dst ++ specLine cfg i a) buf seen := by
  simp only [protoWMTLoop, scalar_not_guard h, h]
  simp

theorem protoWMTLoop_guard (cfg : Config) (recur) (msgName : String) (a : Argument)
    (rest : List Argument) (i : Nat) (dst buf : String) (seen : List String)
    (h : (a.Flavor == Flavor.table && a.TableOf.isNone) = true) :
    protoWMTLoop cfg recur msgName (a :: rest) i dst buf seen =
      (dst, buf, seen, some (PErr.missingTableOf (mtoMsg msgName a))) := by
  simp only [protoWMTLoop, h]
  simp

theorem protoWMTLoop_seen (cfg : Config) (recur) (msgName : String) (a : Argument)
    (rest : List Argument) (i : Nat) (dst buf : String) (seen : List String)
    (hg : (a.Flavor == Flavor.table && a.TableOf.isNone) = false)
    (hc : argIsScalarLine a = false)
    (hs : seen.contains (CamelCase (argWireTyp cfg a)) = true) :
    protoWMTLoop cfg recur msgName (a :: rest) i dst buf seen =
      protoWMTLoop cfg recur msgName rest (i + 1) (dst ++ specLine cfg i a) buf seen := by
  simp only [protoWMTLoop, hg, hc, hs]
  simp

theorem protoWMTLoop_new (cfg : Config) (recur) (msgName : String) (a : Argument)
    (rest : List Argument) (i : Nat) (dst buf : String) (seen : List String)
    (sub : String) (seen' : List String)
    (hg : (a.Flavor == Flavor.table && a.TableOf.isNone) = false)
    (hc : argIsScalarLine a = false)
    (hs : seen.contains (CamelCase (argWireTyp cfg a)) = false)
    (hr : recur (CamelCase (argWireTyp cfg a)) seen (subArgsOf a) = (sub, seen', none)) :
    protoWMTLoop cfg recur msgName (a :: rest) i dst buf seen =
      protoWMTLoop cfg recur msgName rest (i + 1) (dst ++ specLine cfg i a)
        (buf ++ sub) (CamelCase (argWireTyp cfg a) :: seen') := by
  simp only [protoWMTLoop, hg, hc, hs, hr]
  simp

theorem protoWMTLoop_new_err (cfg : Config) (recur) (msgName : String) (a : Argument)
    (rest : List Argument) (i : Nat) (dst buf : String) (seen : List String)
    (sub : String) (seen' : List String) (e : PErr)
    (hg : (a.Flavor == Flavor.table && a.TableOf.isNone) = false)
    (hc : argIsScalarLine a = false)
    (hs : seen.contains (CamelCase (argWireTyp cfg a)) = false)
    (hr : recur (CamelCase (argWireTyp cfg a)) seen (subArgsOf a) = (sub, seen', some e)) :
    protoWMTLoop cfg recur msgName (a :: rest) i dst buf seen = (dst, buf, seen', some e) := by
  simp only [protoWMTLoop, hg, hc, hs, hr]
  simp

theorem protoWMTLoop_out_shape (cfg : Config) (recur) (msgName : String)
    (args : List Argument) : ∀ (i : Nat) (dst buf : String) (seen : List String)
      (dst' buf' : String) (seen' : List String),
    protoWMTLoop cfg recur msgName args i dst buf seen = (dst', buf', seen', none) →
    dst' = dst ++ specLines cfg i args := by
  induction args with
  | nil =>
    intro i dst buf seen dst' buf' seen' h
    simp only [protoWMTLoop_nil, Prod.mk.injEq] at h
    simp [h.1, specLines]
  | cons a rest ih =>
    intro i dst buf seen dst' buf' seen' h
    cases hguard : (a.Flavor == Flavor.table && a.TableOf.isNone) with
    | true =>
      rw [protoWMTLoop_guard cfg recur msgName a rest i dst buf seen hguard] at h
      simp at h
    | false =>
      cases hsc : argIsScalarLine a with
      | true =>
        rw [protoWMTLoop_scalar cfg recur msgName a rest i dst buf seen hsc] at h
        have := ih (i + 1) (dst ++ specLine cfg i a) buf seen dst' buf' seen' h
        simp [this, specLines, String.append_assoc]
      | false =>
        cases hseen : seen.contains (CamelCase (argWireTyp cfg a)) with
        | true =>
          rw [protoWMTLoop_seen cfg recur msgName a rest i dst buf seen hguard hsc hseen] at h
          have := ih (i + 1) (dst ++ specLine cfg i a) buf seen dst' buf' seen' h
          simp [this, specLines, String.append_assoc]
        | false =>
          rcases hrec : recur (CamelCase (argWireTyp cfg a)) seen (subArgsOf a) with
            ⟨sub, seen2, oe⟩
          cases oe with
          | none =>
            rw [protoWMTLoop_new cfg recur msgName a rest i dst buf seen sub seen2
              hguard hsc hseen hrec] at h
            have := ih (i + 1) (dst ++ specLine cfg i a) (buf ++ sub)
              (CamelCase (argWireTyp cfg a) :: seen2) dst' buf' seen' h
            simp [this, specLines, String.append_assoc]
          | some e =>
            rw [protoWMTLoop_new_err cfg recur msgName a rest i dst buf seen sub seen2 e
              hguard hsc hseen hrec] at h
            simp at h

theorem protoWMTLoop_seen_mono (cfg : Config) (recur) (msgName : String)
    (hrec : ∀ m s as, ∀ x ∈ s, x ∈ (recur m s as).2.1)
    (args : List Argument) : ∀ (i : Nat) (dst buf : String) (seen : List String),
    ∀ x ∈ seen, x ∈ (protoWMTLoop cfg recur msgName args i dst buf seen).2.2.1 := by
  induction args with
  | nil =>
    intro i dst buf seen x hx
    simpa [protoWMTLoop_nil] using hx
  | cons a rest ih =>
    intro i dst buf seen x hx
    cases hguard : (a.Flavor == Flavor.table && a.TableOf.isNone) with
    | true =>
      rw [protoWMTLoop_guard cfg recur msgName a rest i dst buf seen hguard]
      simpa using hx
    | false =>
      cases hsc : argIsScalarLine a with
      | true =>
        rw [protoWMTLoop_scalar cfg recur msgName a rest i dst buf seen hsc]
        exact ih (i + 1) (dst ++ specLine cfg i a) buf seen x hx
      | false =>
        cases hseen : seen.contains (CamelCase (argWireTyp cfg a)) with
        | true =>
          rw [protoWMTLoop_seen cfg recur msgName a rest i dst buf seen hguard hsc hseen]
          exact ih (i + 1) (dst ++ specLine cfg i a) buf seen x hx
        | false =>
          rcases hrec2 : recur (CamelCase (argWireTyp cfg a)) seen (subArgsOf a) with
            ⟨sub, seen2, oe⟩
          have hx2 : x ∈ seen2 := by
            have := hrec (CamelCase (argWireTyp cfg a)) seen (subArgsOf a) x hx
            rw [hrec2] at this
            exact this
          cases oe with
          | none =>
            rw [protoWMTLoop_new cfg recur msgName a rest i dst buf seen sub seen2
              hguard hsc hseen hrec2]
            exact ih (i + 1) (dst ++ specLine cfg i a) (buf ++ sub)
              (CamelCase (argWireTyp cfg a) :: seen2) x (List.mem_cons_of_mem _ hx2)
          | some e =>
            rw [protoWMTLoop_new_err cfg recur msgName a rest i dst buf seen sub seen2 e
              hguard hsc hseen hrec2]
            simpa using hx2

theorem protoWMT_seen_mono (cfg : Config) : ∀ (fuel : Nat) (msgName : String)
    (seen : List String) (args : List Argument),
    ∀ x ∈ seen, x ∈ (protoWMT cfg fuel msgName seen args).2.1 := by
  intro fuel
  induction fuel with
  | zero => intro msgName seen args x hx; simpa [protoWMT] using hx
  | succ fuel ih =>
    intro msgName seen args x hx
    simp only [protoWMT]
    cases hf : args.find? (fun a => a.Flavor == Flavor.table && a.TableOf.isNone) with
    | some a => simpa using hx
    | none =>
      rcases hl : protoWMTLoop cfg (protoWMT cfg fuel) msgName args 0
          ("\nmessage " ++ msgName ++ " \x7b\n") "" seen with ⟨dst, buf, seen', oe⟩
      have hm : x ∈ seen' := by
        have := protoWMTLoop_seen_mono cfg (protoWMT cfg fuel) msgName
          (fun m s as y hy => ih m s as y hy) args 0
          ("\nmessage " ++ msgName ++ " \x7b\n") "" seen x hx
        rw [hl] at this
        exact this
      cases oe with
      | none => simpa using hm
      | some e => simpa using hm

theorem foldl_dirFilter (dirmap : Nat) (l : List Argument) : ∀ acc : List Argument,
    l.foldl (fun acc arg => if 0 < arg.Direction &&& dirmap then acc ++ [arg] else acc) acc
      = acc ++ l.filter (fun arg => decide (0 < arg.Direction &&& dirmap)) := by
  induction l with
  | nil => intro acc; simp
  | cons a rest ih =>
    intro acc
    by_cases h : 0 < a.Direction &&& dirmap
    · simp [List.foldl_cons, h, ih]
    · simp [List.foldl_cons, h, ih]

theorem saveDirArgs_filter (f : Function) (out : Bool) :
    saveDirArgs f out =
      f.Args.filter (fun a => decide (0 < a.Direction &&& (if out then DIR_OUT else DIR_IN)))
        ++ (if out then f.Returns.toList else []) := by
  unfold saveDirArgs
  cases out with
  | false => simp [foldl_dirFilter]
  | true => cases hr : f.Returns <;> simp [foldl_dirFilter, hr, Option.toList]

theorem protoWMT_out_shape (cfg : Config) (fuel : Nat) (msgName : String)
    (seen : List String) (args : List Argument) (dst' : String) (seen' : List String)
    (h : protoWMT cfg (fuel + 1) msgName seen args = (dst', seen', none)) :
    ∃ nested, dst' =
      "\nmessage " ++ msgName ++ " \x7b\n" ++ specLines cfg 0 args ++ ("\x7d\n" ++ nested) := by
  simp only [protoWMT] at h
  rcases hf : args.find? (fun a => a.Flavor == Flavor.table && a.TableOf.isNone) with _ | a
  · rw [hf] at h
    rcases hl : protoWMTLoop cfg (protoWMT cfg fuel) msgName args 0
        ("\nmessage " ++ msgName ++ " \x7b\n") "" seen with ⟨dst, buf, seen2, oe⟩
    rw [hl] at h
    cases oe with
    | none =>
      simp only [Prod.mk.injEq] at h
      have hshape := protoWMTLoop_out_shape cfg (protoWMT cfg fuel) msgName args 0
        ("\nmessage " ++ msgName ++ " \x7b\n") "" seen dst buf seen2 hl
      refine ⟨buf, ?_⟩
      rw [← h.1, hshape]
      simp [String.append_assoc]
    | some e => simp at h
  · rw [hf] at h
    simp at h

theorem protoWMT_mto (cfg : Config) (fuel : Nat) (msgName : String)
    (seen : List String) (args : List Argument) (a : Argument)
    (ha : args.find? (fun x => x.Flavor == Flavor.table && x.TableOf.isNone) = some a) :
    protoWMT cfg (fuel + 1) msgName seen args =
      ("", seen, some (PErr.missingTableOf (mtoMsg msgName a))) := by
  simp only [protoWMT, ha]

theorem FunctionSaveProtobuf_input_mto (cfg : Config) (fuel : Nat) (f : Function)
    (seen : List String) (a : Argument)
    (ha : (saveDirArgs f false).find?
        (fun x => x.Flavor == Flavor.table && x.TableOf.isNone) = some a) :
    FunctionSaveProtobuf cfg (fuel + 1) f seen =
      ("", seen, some (wrapErr "input" (PErr.missingTableOf (mtoMsg (dirMsgName f false) a)))) := by
  unfold FunctionSaveProtobuf saveProtobufDir
  rw [protoWMT_mto cfg fuel (dirMsgName f false) seen (saveDirArgs f false) a ha]

theorem saveLoop_cons_skip (cfg : Config) (fuel : Nat) (sink : Nat → Option String)
    (f : Function) (rest : List Function) (w : EW) (seen services : List String)
    (txt : String) (seen' : List String) (e : PErr)
    (h : FunctionSaveProtobuf cfg fuel f seen = (txt, seen', some e))
    (hskip : cfg.SkipMissingTableOf = true) (hmto : isMissingTableOf e = true) :
    saveLoop cfg fuel sink (f :: rest) w seen services =
      saveLoop cfg fuel sink rest w seen' services := by
  simp only [saveLoop, h, hskip, hmto]
  simp

theorem saveLoop_cons_abort (cfg : Config) (fuel : Nat) (sink : Nat → Option String)
    (f : Function) (rest : List Function) (w : EW) (seen services : List String)
    (txt : String) (seen' : List String) (e : PErr)
    (h : FunctionSaveProtobuf cfg fuel f seen = (txt, seen', some e))
    (hne : (cfg.SkipMissingTableOf && isMissingTableOf e) = false) :
    saveLoop cfg fuel sink (f :: rest) w seen services = (w, seen', services, some e) := by
  simp only [saveLoop, h, hne]
  simp

theorem saveLoop_cons_commit (cfg : Config) (fuel : Nat) (sink : Nat → Option String)
    (f : Function) (rest : List Function) (w : EW) (seen services : List String)
    (txt : String) (seen' : List String) (w' : EW)
    (h : FunctionSaveProtobuf cfg fuel f seen = (txt, seen', none))
    (hw : ewWrite sink w txt = (w', none)) :
    saveLoop cfg fuel sink (f :: rest) w seen services =
      saveLoop cfg fuel sink rest w' seen' (services ++ [serviceEntry f]) := by
  simp only [saveLoop, h, hw]

/-- C10: every options map the type mapper produces has at most one key,
and rendering a one-or-zero-entry option map is invariant under the
(unspecified) map iteration order, so option rendering — and with it the
emitted schema text, a pure function of its inputs in this embedding — is
deterministic. -/
theorem c10_options_at_most_one_key_deterministic :
    (∀ (cfg : Config) (got aName : String), ((protoType cfg got aName).2).length ≤ 1) ∧
    (∀ (l l' : protoOptions), List.Perm l l' → l.length ≤ 1 →
      protoOptionsString l = protoOptionsString l') := by
  constructor
  · intro cfg got aName
    unfold protoType
    generalize strToLower (goTrimPrefix (goTrimPrefix got "[]") "*") = t
    simp only [beq_iff_eq, Bool.or_eq_true]
    split_ifs <;> simp
  · intro l l' hperm hlen
    match l, hlen with
    | [], _ => rw [List.Perm.eq_nil hperm.symm]
    | [kv], _ => rw [List.perm_singleton.mp hperm.symm]

/-- C10 witness: a concrete one-entry option map is rendered identically
under any permutation of itself. -/
theorem c10_witness :
    List.Perm [("k", OptVal.strV "v")] [("k", OptVal.strV "v")] ∧
      protoOptionsString [("k", OptVal.strV "v")] =
        protoOptionsString [("k", OptVal.strV "v")] :=
  ⟨List.Perm.refl _,
    c10_options_at_most_one_key_deterministic.2 _ _ (List.Perm.refl _) (by decide)⟩

/-- C7: for an argument named `amount` of 64-bit float type (`float64`),
with the numbers-as-strings flag on, the mapper yields wire type `double`
with the json-tag string hint keyed by the field name, rendered in the
bracketed option list of the field line; with the flag off the line has no
option block; and an empty option set renders as nothing. -/
theorem c7_number_as_string_field_line (cfg : Config) (d N : Nat) (absT : String) :
    (cfg.NumberAsString = true →
      protoType cfg "float64" "amount" =
        ("double", [("gogoproto.jsontag", OptVal.strV "amount,string,omitempty")]) ∧
      protoOptionsString [("gogoproto.jsontag", OptVal.strV "amount,string,omitempty")] =
        "[(gogoproto.jsontag)=\"amount,string,omitempty\"]" ∧
      specLine cfg N (Argument.mk "amount" d Flavor.simple absT "float64" none none) =
        "\t// " ++ absT ++ ("\n\tdouble amount = " ++ (toString (N + 1) ++
          " [(gogoproto.jsontag)=\"amount,string,omitempty\"];\n"))) ∧
    (cfg.NumberAsString = false →
      protoType cfg "float64" "amount" = ("double", []) ∧
      specLine cfg N (Argument.mk "amount" d Flavor.simple absT "float64" none none) =
        "\t// " ++ absT ++ ("\n\tdouble amount = " ++ (toString (N + 1) ++ ";\n"))) ∧
    protoOptionsString [] = "" := by
  have eEnds : strHasSuffix "amount" "#" = false := by decide
  have eTrim : goTrimPrefix "float64" "*" = "float64" := by decide
  have eSW : strHasPrefix "float64" "[]" = false := by decide
  have eLower : strToLower (goTrimPrefix (goTrimPrefix "float64" "[]") "*") = "float64" := by
    decide
  have hfn : argFieldName (Argument.mk "amount" d Flavor.simple absT "float64" none none)
      = "amount" := by
    simp [argFieldName, Argument.Name, eEnds]
  have hrg : argRuleGot (Argument.mk "amount" d Flavor.simple absT "float64" none none)
      = ("", "float64") := by
    simp [argRuleGot, Argument.Flavor, Argument.GoType, eTrim, eSW]
  have hgot : argGot (Argument.mk "amount" d Flavor.simple absT "float64" none none)
      = "float64" := by
    simp [argGot, hrg, hfn]
  have hsc : argIsScalarLine (Argument.mk "amount" d Flavor.simple absT "float64" none none)
      = true := by
    simp [argIsScalarLine, Argument.Flavor]
  refine ⟨?_, ?_, by decide⟩
  · intro hn
    have hpt : protoType cfg "float64" "amount" =
        ("double", [("gogoproto.jsontag", OptVal.strV "amount,string,omitempty")]) := by
      simp only [protoType]
      simp [eLower, hn]
    have hopts : protoOptionsString
        [("gogoproto.jsontag", OptVal.strV "amount,string,omitempty")] =
        "[(gogoproto.jsontag)=\"amount,string,omitempty\"]" := by decide
    refine ⟨hpt, hopts, ?_⟩
    have hopt : argOptS cfg (Argument.mk "amount" d Flavor.simple absT "float64" none none)
        = " [(gogoproto.jsontag)=\"amount,string,omitempty\"]" := by
      simp [argOptS, hgot, hfn, hpt, hopts]
    simp only [specLine, hsc, if_true, Argument.AbsType, hrg, argWireTyp, hgot, hfn, hpt,
      hopt]
    simp only [String.append_assoc]
    congr 1
  · intro hn
    have hpt : protoType cfg "float64" "amount" = ("double", []) := by
      simp only [protoType]
      simp [eLower, hn]
    refine ⟨hpt, ?_⟩
    have hopt : argOptS cfg (Argument.mk "amount" d Flavor.simple absT "float64" none none)
        = "" := by
      simp [argOptS, hgot, hfn, hpt, protoOptionsString]
    simp only [specLine, hsc, if_true, Argument.AbsType, hrg, argWireTyp, hgot, hfn, hpt,
      hopt]
    simp only [String.append_assoc]
    congr 1

/-- C7 witness: the theorem applied at a concrete configuration and
argument. -/
theorem c7_witness :
    (Config.mk true false true).NumberAsString = true ∧
    specLine (Config.mk true false true) 0
        (Argument.mk "amount" 1 Flavor.simple "BINARY_DOUBLE" "float64" none none) =
      "\t// BINARY_DOUBLE\n\tdouble amount = 1 [(gogoproto.jsontag)=\"amount,string,omitempty\"];\n" := by
  refine ⟨rfl, ?_⟩
  have h := (c7_number_as_string_field_line (Config.mk true false true) 1 0 "BINARY_DOUBLE").1 rfl
  rw [h.2.2]
  decide

/-- C5: an argument that is a plain scalar (`FLAVOR_SIMPLE`) or a table
whose `TableOf` element is a plain scalar produces exactly one field line
— a doc comment carrying the absolute native type label followed by the
field line — with the `repeated` qualifier forced whenever the Flavor is
TABLE; the loop then continues with the next argument, touching neither
the nested-message side buffer nor the registry and without recursing
(the equation holds for every `recur`). -/
theorem c5_scalar_single_field_line (cfg : Config) (recur) (msgName : String)
    (a : Argument) (rest : List Argument) (i : Nat) (dst buf : String)
    (seen : List String)
    (h : a.Flavor = Flavor.simple ∨
      (a.Flavor = Flavor.table ∧ ∃ t, a.TableOf = some t ∧ t.Flavor = Flavor.simple)) :
    protoWMTLoop cfg recur msgName (a :: rest) i dst buf seen =
      protoWMTLoop cfg recur msgName rest (i + 1) (dst ++ specLine cfg i a) buf seen ∧
    specLine cfg i a =
      "\t// " ++ a.AbsType ++ "\n\t" ++ (argRuleGot a).1 ++ argWireTyp cfg a ++ " " ++
        argFieldName a ++ " = " ++ toString (i + 1) ++ argOptS cfg a ++ ";\n" ∧
    (a.Flavor = Flavor.table → (argRuleGot a).1 = "repeated ") := by
  have hb : argIsScalarLine a = true := by
    rcases h with hf | ⟨hf, t, hto, hts⟩
    · simp [argIsScalarLine, hf]
    · simp [argIsScalarLine, argTableOfFlavorSimple, hf, hto, hts]
  refine ⟨protoWMTLoop_scalar cfg recur msgName a rest i dst buf seen hb, ?_, ?_⟩
  · simp [specLine, hb]
  · intro hf
    unfold argRuleGot
    simp only [hf]
    split <;> simp

/-- C5 witness: the theorem at a concrete table-of-scalar argument. -/
theorem c5_witness :
    ((Argument.mk "ids" 1 Flavor.table "ID_TAB" "[]int32"
        (some (Argument.mk "x" 1 Flavor.simple "NUMBER" "int32" none none)) none).Flavor
          = Flavor.simple ∨
      ((Argument.mk "ids" 1 Flavor.table "ID_TAB" "[]int32"
        (some (Argument.mk "x" 1 Flavor.simple "NUMBER" "int32" none none)) none).Flavor
          = Flavor.table ∧
        ∃ t, (Argument.mk "ids" 1 Flavor.table "ID_TAB" "[]int32"
          (some (Argument.mk "x" 1 Flavor.simple "NUMBER" "int32" none none)) none).TableOf
            = some t ∧ t.Flavor = Flavor.simple)) ∧
    protoWMTLoop (Config.mk true false false) (fun _ s _ => ("", s, none)) "M"
        [Argument.mk "ids" 1 Flavor.table "ID_TAB" "[]int32"
          (some (Argument.mk "x" 1 Flavor.simple "NUMBER" "int32" none none)) none]
        0 "" "" [] =
      protoWMTLoop (Config.mk true false false) (fun _ s _ => ("", s, none)) "M" [] 1
        ("" ++ specLine (Config.mk true false false) 0
          (Argument.mk "ids" 1 Flavor.table "ID_TAB" "[]int32"
            (some (Argument.mk "x" 1 Flavor.simple "NUMBER" "int32" none none)) none))
        "" [] :=
  have hp : _ := Or.inr ⟨rfl, ⟨Argument.mk "x" 1 Flavor.simple "NUMBER" "int32" none none,
    rfl, rfl⟩⟩
  ⟨hp, (c5_scalar_single_field_line (Config.mk true false false)
    (fun _ s _ => ("", s, none)) "M" _ [] 0 "" "" [] hp).1⟩

/-- C9: when the normalized type descriptor is empty after stripping the
indirection and collection markers, the emitter synthesizes the
deterministic placeholder `mkRecTypName` — the argument's (desugared) name
lower-cased plus the fixed suffix `_rek_typ` — and proceeds with that name;
for a scalar argument the loop step succeeds unconditionally with the
placeholder-derived wire type. -/
theorem c9_empty_descriptor_placeholder (cfg : Config) (recur) (msgName : String)
    (a : Argument) (rest : List Argument) (i : Nat) (dst buf : String)
    (seen : List String)
    (hE : (argRuleGot a).2 = "") :
    argGot a = mkRecTypName (argFieldName a) ∧
    (∀ n, mkRecTypName n = strToLower n ++ "_rek_typ") ∧
    (a.Flavor = Flavor.simple →
      protoWMTLoop cfg recur msgName (a :: rest) i dst buf seen =
        protoWMTLoop cfg recur msgName rest (i + 1) (dst ++ specLine cfg i a) buf seen ∧
      argWireTyp cfg a =
        (protoType cfg (mkRecTypName (argFieldName a)) (argFieldName a)).1) := by
  have hg : argGot a = mkRecTypName (argFieldName a) := by
    simp [argGot, hE]
  refine ⟨hg, fun n => rfl, ?_⟩
  intro hf
  constructor
  · exact protoWMTLoop_scalar cfg recur msgName a rest i dst buf seen
      (by simp [argIsScalarLine, hf])
  · simp [argWireTyp, hg]

/-- C9 witness: a scalar argument with an empty descriptor gets the
placeholder name and a successful field line. -/
theorem c9_witness :
    (argRuleGot (Argument.mk "p_emp" 2 Flavor.simple "EMP_REC" "" none none)).2 = "" ∧
    argGot (Argument.mk "p_emp" 2 Flavor.simple "EMP_REC" "" none none) =
      mkRecTypName (argFieldName (Argument.mk "p_emp" 2 Flavor.simple "EMP_REC" "" none none)) ∧
    argGot (Argument.mk "p_emp" 2 Flavor.simple "EMP_REC" "" none none) = "p_emp_rek_typ" :=
  ⟨by decide,
    (c9_empty_descriptor_placeholder (Config.mk true false false)
      (fun _ s _ => ("", s, none)) "M" _ [] 0 "" "" [] (by decide)).1,
    by decide⟩

/-- C8: the input/output message names are derived by lower-casing the
function name, replacing dots with a double underscore, appending the
direction suffix and title-casing the result; the service block's rpc
entry uses exactly these derived names for its input and output message
references (and the method name comes from the same lower-case/replace/
title-case rule). -/
theorem c8_rpc_uses_derived_message_names (f : Function) :
    dirMsgName f false = CamelCase (getStructName f false) ∧
    dirMsgName f true = CamelCase (getStructName f true) ∧
    dirMsgName f false = CamelCase (dot2D (strToLower f.name) ++ "__input") ∧
    dirMsgName f true = CamelCase (dot2D (strToLower f.name) ++ "__output") ∧
    serviceEntry f =
      (if f.Documentation != "" then
        "\n/// " ++ strReplaceChar (Char.ofNat 10) "\n/// " f.Documentation ++ "\n\t"
      else "") ++
        "rpc " ++ CamelCase (dot2D (strToLower f.name)) ++ " (" ++ dirMsgName f false ++
        ") returns (" ++ (if f.hasCursorOut then "stream " else "") ++
        dirMsgName f true ++ ") \x7b\x7d" := by
  refine ⟨rfl, rfl, ?_, ?_, ?_⟩
  · simp only [dirMsgName, String.append_assoc]
    rfl
  · simp only [dirMsgName, String.append_assoc]
    rfl
  · simp [serviceEntry, dirMsgName, getStructName]

/-- C2: emission is atomic at function granularity — `Function.SaveProtobuf`
buffers both directions before committing: on any error (either direction)
the committed text is empty, an input-direction error is wrapped `input`
and aborts before the output direction commits anything, an
output-direction error is wrapped `output` and also discards the already
emitted input-direction text, and only on success of both directions is
the concatenated two-direction text committed at once. -/
theorem c2_function_commit_atomic (cfg : Config) (fuel : Nat) (f : Function)
    (seen : List String) :
    ((FunctionSaveProtobuf cfg fuel f seen).2.2.isSome = true →
      (FunctionSaveProtobuf cfg fuel f seen).1 = "") ∧
    (∀ e t s, saveProtobufDir cfg fuel f seen false = (t, s, some e) →
      FunctionSaveProtobuf cfg fuel f seen = ("", s, some (wrapErr "input" e))) ∧
    (∀ t1 s1 e t2 s2, saveProtobufDir cfg fuel f seen false = (t1, s1, none) →
      saveProtobufDir cfg fuel f s1 true = (t2, s2, some e) →
      FunctionSaveProtobuf cfg fuel f seen = ("", s2, some (wrapErr "output" e))) ∧
    (∀ t1 s1 t2 s2, saveProtobufDir cfg fuel f seen false = (t1, s1, none) →
      saveProtobufDir cfg fuel f s1 true = (t2, s2, none) →
      FunctionSaveProtobuf cfg fuel f seen = (t1 ++ t2, s2, none)) := by
  refine ⟨?_, ?_, ?_, ?_⟩
  · intro hsome
    unfold FunctionSaveProtobuf at hsome ⊢
    rcases h1 : saveProtobufDir cfg fuel f seen false with ⟨t1, s1, e1⟩
    cases e1 with
    | none =>
      dsimp only at hsome ⊢
      rcases h2 : saveProtobufDir cfg fuel f s1 true with ⟨t2, s2, e2⟩
      cases e2 with
      | none =>
        rw [h1] at hsome
        dsimp only at hsome
        rw [h2] at hsome
        simp at hsome
      | some e => rfl
    | some e => rfl
  · intro e t s h1
    unfold FunctionSaveProtobuf
    simp only [h1]
  · intro t1 s1 e t2 s2 h1 h2
    unfold FunctionSaveProtobuf
    simp only [h1]
    simp only [h2]
  · intro t1 s1 t2 s2 h1 h2
    unfold FunctionSaveProtobuf
    simp only [h1]
    simp only [h2]

/-- C2 witness: a function whose output direction fails with
MissingTableOf commits nothing even though the input direction succeeded. -/
theorem c2_witness :
    saveProtobufDir (Config.mk true false false) 5
        (Function.mk "f" [Argument.mk "t" 2 Flavor.table "T" "[]x" none none] none "" false)
        [] false =
      ("\nmessage FInput \x7b\n\x7d\n", [], none) ∧
    FunctionSaveProtobuf (Config.mk true false false) 5
        (Function.mk "f" [Argument.mk "t" 2 Flavor.table "T" "[]x" none none] none "" false)
        [] =
      ("", [], some (wrapErr "output"
        (PErr.missingTableOf (mtoMsg "FOutput" (Argument.mk "t" 2 Flavor.table "T" "[]x" none none))))) := by
  refine ⟨by decide, ?_⟩
  exact (c2_function_commit_atomic (Config.mk true false false) 5
      (Function.mk "f" [Argument.mk "t" 2 Flavor.table "T" "[]x" none none] none "" false)
      []).2.2.1 "\nmessage FInput \x7b\n\x7d\n" []
    (PErr.missingTableOf (mtoMsg "FOutput" (Argument.mk "t" 2 Flavor.table "T" "[]x" none none)))
    "" [] (by decide) (by decide)

/-- C4: the dedup registry makes nested-message bodies unique per derived
name within one run: a composite argument whose derived name is already in
the registry emits only the bare referencing field line (side buffer and
registry untouched, regardless of the argument's structure); a composite
argument whose name is not yet registered emits the body into the side
buffer and registers the name; and the emitter only ever adds names to the
registry (so a name registered by any earlier argument — either direction,
any function of the run — stays registered). -/
theorem c4_dedup_registry (cfg : Config) (recur) (msgName : String) (a : Argument)
    (rest : List Argument) (i : Nat) (dst buf : String) (seen : List String)
    (hg : (a.Flavor == Flavor.table && a.TableOf.isNone) = false)
    (hc : argIsScalarLine a = false) :
    (seen.contains (CamelCase (argWireTyp cfg a)) = true →
      protoWMTLoop cfg recur msgName (a :: rest) i dst buf seen =
        protoWMTLoop cfg recur msgName rest (i + 1) (dst ++ specLine cfg i a) buf seen) ∧
    (∀ sub seen', seen.contains (CamelCase (argWireTyp cfg a)) = false →
      recur (CamelCase (argWireTyp cfg a)) seen (subArgsOf a) = (sub, seen', none) →
      protoWMTLoop cfg recur msgName (a :: rest) i dst buf seen =
        protoWMTLoop cfg recur msgName rest (i + 1) (dst ++ specLine cfg i a)
          (buf ++ sub) (CamelCase (argWireTyp cfg a) :: seen')) ∧
    (∀ fuel m s args x, x ∈ s → x ∈ (protoWMT cfg fuel m s args).2.1) := by
  refine ⟨?_, ?_, ?_⟩
  · intro hs
    exact protoWMTLoop_seen cfg recur msgName a rest i dst buf seen hg hc hs
  · intro sub seen' hs hr
    exact protoWMTLoop_new cfg recur msgName a rest i dst buf seen sub seen' hg hc hs hr
  · intro fuel m s args x hx
    exact protoWMT_seen_mono cfg fuel m s args x hx

/-- C4 witness: a composite argument whose derived name is already
registered emits only the bare reference. -/
theorem c4_witness :
    ((Argument.mk "p_emp" 2 Flavor.record "EMP_REC" "" none
        (some [("name", Argument.mk "name" 3 Flavor.simple "VARCHAR2" "string" none none)])).Flavor
      == Flavor.table &&
     (Argument.mk "p_emp" 2 Flavor.record "EMP_REC" "" none
        (some [("name", Argument.mk "name" 3 Flavor.simple "VARCHAR2" "string" none none)])).TableOf.isNone)
      = false ∧
    protoWMTLoop (Config.mk true false false) (protoWMT (Config.mk true false false) 5) "M"
        [Argument.mk "p_emp" 2 Flavor.record "EMP_REC" "" none
          (some [("name", Argument.mk "name" 3 Flavor.simple "VARCHAR2" "string" none none)])]
        0 "" "" ["PEmpRekTyp"] =
      protoWMTLoop (Config.mk true false false) (protoWMT (Config.mk true false false) 5) "M"
        [] 1
        ("" ++ specLine (Config.mk true false false) 0
          (Argument.mk "p_emp" 2 Flavor.record "EMP_REC" "" none
            (some [("name", Argument.mk "name" 3 Flavor.simple "VARCHAR2" "string" none none)])))
        "" ["PEmpRekTyp"] := by
  refine ⟨by decide, ?_⟩
  exact (c4_dedup_registry (Config.mk true false false)
      (protoWMT (Config.mk true false false) 5) "M" _ [] 0 "" "" ["PEmpRekTyp"]
      (by decide) (by decide)).1 (by decide)

/-- C6: per function and direction the selected arguments are exactly the
arguments whose Direction bit set contains the direction's bit, in
original order, with the `Returns` argument appended last for the output
direction; the emitted message body consists of one field line per
selected argument with field numbers assigned sequentially from 1 in that
order, independently per message (each message's lines start at index 0,
i.e. field number 1). -/
theorem c6_selection_and_numbering (cfg : Config) (f : Function) (out : Bool)
    (fuel : Nat) (msgName : String) (seen : List String) (args : List Argument)
    (dst' : String) (seen'' : List String) :
    (saveDirArgs f out =
      f.Args.filter
        (fun a => decide (0 < a.Direction &&& (if out then DIR_OUT else DIR_IN)))
        ++ (if out then f.Returns.toList else [])) ∧
    (saveProtobufDir cfg fuel f seen out =
      protoWMT cfg fuel (dirMsgName f out) seen (saveDirArgs f out)) ∧
    (protoWMT cfg (fuel + 1) msgName seen args = (dst', seen'', none) →
      ∃ nested, dst' = "\nmessage " ++ msgName ++ " \x7b\n" ++ specLines cfg 0 args ++
        ("\x7d\n" ++ nested)) ∧
    (∀ (i : Nat) (a : Argument), ∃ pre post,
      specLine cfg i a = pre ++ (" = " ++ (toString (i + 1) ++ post))) := by
  refine ⟨saveDirArgs_filter f out, rfl, ?_, ?_⟩
  · intro h
    exact protoWMT_out_shape cfg fuel msgName seen args dst' seen'' h
  · intro i a
    cases hsc : argIsScalarLine a with
    | true =>
      refine ⟨"\t// " ++ a.AbsType ++ "\n\t" ++ (argRuleGot a).1 ++ argWireTyp cfg a ++
        " " ++ argFieldName a, argOptS cfg a ++ ";\n", ?_⟩
      simp only [specLine, hsc, if_true, String.append_assoc]
    | false =>
      refine ⟨"\t" ++ (argRuleGot a).1 ++ CamelCase (argWireTyp cfg a) ++ " " ++
        argFieldName a, argOptS cfg a ++ ";\n", ?_⟩
      simp only [specLine, hsc, Bool.false_eq_true, if_false, String.append_assoc]

/-- C6 witness: a concrete two-argument function: the input direction
selects exactly the IN-flagged arguments in order and the output direction
appends `Returns`; the emitted body carries field numbers 1, 2. -/
theorem c6_witness :
    saveDirArgs
        (Function.mk "f"
          [Argument.mk "a" 1 Flavor.simple "N" "int32" none none,
           Argument.mk "b" 3 Flavor.simple "N" "int32" none none]
          (some (Argument.mk "r" 2 Flavor.simple "N" "int32" none none)) "" false) true =
      [Argument.mk "b" 3 Flavor.simple "N" "int32" none none,
       Argument.mk "r" 2 Flavor.simple "N" "int32" none none] ∧
    (∃ nested,
      "\nmessage M \x7b\n\t// N\n\tsint32 a = 1;\n\t// N\n\tsint32 b = 2;\n\x7d\n" =
        "\nmessage " ++ "M" ++ " \x7b\n" ++
          specLines (Config.mk true false false) 0
            [Argument.mk "a" 1 Flavor.simple "N" "int32" none none,
             Argument.mk "b" 3 Flavor.simple "N" "int32" none none] ++
          ("\x7d\n" ++ nested)) := by
  refine ⟨by rfl, ?_⟩
  exact (c6_selection_and_numbering (Config.mk true false false)
      (Function.mk "f" [] none "" false) false 3 "M" []
      [Argument.mk "a" 1 Flavor.simple "N" "int32" none none,
       Argument.mk "b" 3 Flavor.simple "N" "int32" none none]
      "\nmessage M \x7b\n\t// N\n\tsint32 a = 1;\n\t// N\n\tsint32 b = 2;\n\x7d\n" []).2.2.1
    (by decide)

/-- C1: a function with a TABLE-flavored input argument whose `TableOf` is
absent fails with a MissingTableOf error naming the owning message and the
argument, and commits nothing; with the skip policy enabled the function
loop drops it entirely — the writer, the collected service entries and
hence the final output (message text and rpc list) are exactly those of
the remaining functions, and a run consisting of such a function returns
no error; with the skip policy disabled the loop aborts, and `SaveProtobuf`
returns that MissingTableOf error. -/
theorem c1_skip_missing_table_of_policy (cfg : Config) (fuel : Nat)
    (sink : Nat → Option String) (pkg : String) (f : Function) (a : Argument)
    (rest : List Function) (w : EW) (seen services : List String)
    (ha : (saveDirArgs f false).find?
        (fun x => x.Flavor == Flavor.table && x.TableOf.isNone) = some a) :
    FunctionSaveProtobuf cfg (fuel + 1) f seen =
      ("", seen,
        some (wrapErr "input" (PErr.missingTableOf (mtoMsg (dirMsgName f false) a)))) ∧
    (cfg.SkipMissingTableOf = true →
      saveLoop cfg (fuel + 1) sink (f :: rest) w seen services =
        saveLoop cfg (fuel + 1) sink rest w seen services) ∧
    (cfg.SkipMissingTableOf = false →
      saveLoop cfg (fuel + 1) sink (f :: rest) w seen services =
        (w, seen, services,
          some (wrapErr "input" (PErr.missingTableOf (mtoMsg (dirMsgName f false) a))))) ∧
    (cfg.SkipMissingTableOf = false →
      (SaveProtobuf cfg (fuel + 1) sink (f :: rest) pkg).2 =
        some (wrapErr "input" (PErr.missingTableOf (mtoMsg (dirMsgName f false) a)))) ∧
    (cfg.SkipMissingTableOf = true →
      (SaveProtobuf cfg (fuel + 1) sink [f] pkg).2 = none) := by
  have h1 := FunctionSaveProtobuf_input_mto cfg fuel f seen a ha
  have h0 := FunctionSaveProtobuf_input_mto cfg fuel f [] a ha
  refine ⟨h1, ?_, ?_, ?_, ?_⟩
  · intro hs
    exact saveLoop_cons_skip cfg (fuel + 1) sink f rest w seen services _ _ _ h1 hs rfl
  · intro hs
    refine saveLoop_cons_abort cfg (fuel + 1) sink f rest w seen services _ _ _ h1 ?_
    rw [hs]
    rfl
  · intro hs
    unfold SaveProtobuf
    rw [saveLoop_cons_abort cfg (fuel + 1) sink f rest (headerEW cfg sink pkg) [] []
      _ _ _ h0 (by rw [hs]; rfl)]
  · intro hs
    unfold SaveProtobuf
    rw [saveLoop_cons_skip cfg (fuel + 1) sink f [] (headerEW cfg sink pkg) [] []
      _ _ _ h0 hs rfl]
    rfl

/-- C1 witness: a concrete function with a TABLE argument lacking
`TableOf`, under the skip policy: it is skipped and the run returns no
error. -/
theorem c1_witness :
    (saveDirArgs
        (Function.mk "bad.fn" [Argument.mk "tbl" 3 Flavor.table "TBL" "[]x" none none]
          none "" false) false).find?
      (fun x => x.Flavor == Flavor.table && x.TableOf.isNone) =
        some (Argument.mk "tbl" 3 Flavor.table "TBL" "[]x" none none) ∧
    (SaveProtobuf (Config.mk true false false) 3 okSink
      [Function.mk "bad.fn" [Argument.mk "tbl" 3 Flavor.table "TBL" "[]x" none none]
        none "" false] "m").2 = none := by
  refine ⟨by rfl, ?_⟩
  exact (c1_skip_missing_table_of_policy (Config.mk true false false) 2 okSink "m"
    (Function.mk "bad.fn" [Argument.mk "tbl" 3 Flavor.table "TBL" "[]x" none none]
      none "" false)
    (Argument.mk "tbl" 3 Flavor.table "TBL" "[]x" none none)
    [] (headerEW (Config.mk true false false) okSink "m") [] []
    (by rfl)).2.2.2.2 rfl

/-- C3, refuted by the code (code bug): the claim says any failed write to
the destination sink makes `SaveProtobuf` return a non-nil error, but the
final statement of `SaveProtobuf` returns `nil` unconditionally: with an
empty function list and a sink that fails every write, the syntax-header
write fails (the `errWriter` latches the error and nothing is ever
written), yet `SaveProtobuf` returns no error. -/
theorem c3_write_failure_swallowed :
    SaveProtobuf (Config.mk true false false) 1 (fun _ => some "disk full") [] "" =
      ({ out := "", cnt := 1, err := some "disk full" }, none) := by decide
